import Mathlib

/-!
Shallow embedding of `src/word_to_markdown.py`.

The script is a linear pipeline: download a Word document over HTTP,
convert it to Markdown (external library), upload the extracted PNG
images to MinIO object storage, and rewrite the Markdown image links to
point at the uploaded copies.

Modelling choices:
  * Strings are `List Char`.
  * The MinIO client is modelled by an environment `MinioEnv` that fixes,
    for one call of `upload_file_to_minio`, whether the bucket exists,
    the UUID produced by `uuid.uuid4()`, and which client operations
    raise an exception.  Each call also produces a trace of the client
    operations it issued (`MinioOp`), in order; a caught exception is
    recorded as the `logFailure` trace entry emitted by the
    `except` handler.
  * The regular expression built at line 80 of the source,
    `!\[[^\]]*\]\([^)]*NAME[^)]*\)` with `NAME = re.escape(image_file.name)`,
    is embedded as a list of `Piece`s, and `matchPieces` implements the
    backtracking (greedy, leftmost) semantics of Python's `re` engine for
    this pattern family.  `reSub` implements `re.sub`: scan left to
    right, replace each leftmost non-overlapping match.
  * The HTTP layer and the document converter are modelled by `RunEnv`:
    the response (status and body) or a network failure, whether the
    conversion call raises, and the artifacts the conversion writes.
-/

/-! ## Configuration constants (lines 27-31 of the source) -/

def MINIO_ENDPOINT : List Char := "127.0.0.1:9000".data

def MINIO_BUCKET : List Char := "img".data

def MINIO_BASE_URL : List Char := "http://127.0.0.1:9000".data

/-- Content type passed to every `fput_object` call (line 52). -/
def contentTypePng : List Char := "image/png".data

/-! ## MinIO client model and `upload_file_to_minio` (lines 33-59) -/

/-- Environment for one call of `upload_file_to_minio`: the state of the
object store and the fault behaviour of each client operation, plus the
UUID that `uuid.uuid4()` returns during the call. -/
structure MinioEnv where
  bucketExists : Bool
  uuid : List Char
  bucketExistsFails : Bool
  makeBucketFails : Bool
  fputFails : Bool
deriving DecidableEq

/-- A client operation issued during `upload_file_to_minio`, or the
logging of a caught exception (line 58). -/
inductive MinioOp where
  | checkBucket
  | makeBucket
  | fput (bucket objectName filePath contentType : List Char)
  | logFailure
deriving DecidableEq

/-- The object name built at line 46: `f"{uuid.uuid4()}_{object_name}"`. -/
def uniqueFilename (env : MinioEnv) (objectName : List Char) : List Char :=
  env.uuid ++ '_' :: objectName

/-- The part of `upload_file_to_minio` after the bucket is known to
exist: the `fput_object` call (lines 46-55).  `t` is the trace of the
operations already issued. -/
def uploadAfterBucket (env : MinioEnv) (filePath objectName : List Char)
    (t : List MinioOp) : Option (List Char) × List MinioOp :=
  let uf := uniqueFilename env objectName
  if env.fputFails then
    (none, t ++ [MinioOp.fput MINIO_BUCKET uf filePath contentTypePng, MinioOp.logFailure])
  else
    (some (MINIO_BASE_URL ++ '/' :: (MINIO_BUCKET ++ '/' :: uf)),
      t ++ [MinioOp.fput MINIO_BUCKET uf filePath contentTypePng])

/-- Embedding of `upload_file_to_minio` (lines 33-59).  Returns the value
the Python function returns (the public URL, or `None` when any client
operation raised and the `except` handler swallowed it) together with
the trace of client operations issued before returning. -/
def upload_file_to_minio (env : MinioEnv) (filePath objectName : List Char) :
    Option (List Char) × List MinioOp :=
  if env.bucketExistsFails then
    (none, [MinioOp.checkBucket, MinioOp.logFailure])
  else if env.bucketExists then
    uploadAfterBucket env filePath objectName [MinioOp.checkBucket]
  else if env.makeBucketFails then
    (none, [MinioOp.checkBucket, MinioOp.makeBucket, MinioOp.logFailure])
  else
    uploadAfterBucket env filePath objectName [MinioOp.checkBucket, MinioOp.makeBucket]

/-! ## The regular-expression engine used at lines 80-82 -/

/-- A component of the pattern built at line 80: a literal character, a
literal string (the `re.escape`d filename), or a greedy star over the
complement of one character (`[^x]*`). -/
inductive Piece where
  | lit (c : Char)
  | litStr (s : List Char)
  | starNot (c : Char)
deriving DecidableEq

/-- Backtracking loop for a greedy star: try the continuation `f` on the
suffixes `s.drop n`, `s.drop (n-1)`, ..., `s.drop 0`, in that order, and
return the first success. -/
def tryStarGen (f : List Char → Option (List Char)) (s : List Char) :
    Nat → Option (List Char)
  | 0 => f s
  | Nat.succ k =>
      match f (s.drop (Nat.succ k)) with
      | some r => some r
      | none => tryStarGen f s k

/-- Match a list of pattern pieces at the start of `s`, with Python's
backtracking semantics (stars are greedy and backtrack).  Returns the
remainder of `s` after the match, or `none` when no match starts at the
first character. -/
def matchPieces : List Piece → List Char → Option (List Char)
  | [], s => some s
  | Piece.lit c :: ps, s =>
      match s with
      | [] => none
      | d :: s2 => if d = c then matchPieces ps s2 else none
  | Piece.litStr l :: ps, s =>
      if l.isPrefixOf s then matchPieces ps (s.drop l.length) else none
  | Piece.starNot c :: ps, s =>
      tryStarGen (fun s2 => matchPieces ps s2) s
        ((s.takeWhile fun d => !(d = c)).length)
termination_by ps _ => ps.length

/-- Embedding of `re.sub(pattern, repl, s)` for a pattern with no
capture groups and a replacement with no backreferences: scan `s` left
to right, replace each leftmost non-overlapping match with `repl`. -/
def reSub (pat : List Piece) (repl : List Char) : List Char → List Char
  | [] =>
      match matchPieces pat [] with
      | some _ => repl
      | none => []
  | d :: rest =>
      match matchPieces pat (d :: rest) with
      | some r =>
          if hlt : r.length < (d :: rest).length then repl ++ reSub pat repl r
          else repl ++ d :: reSub pat repl rest
      | none => d :: reSub pat repl rest
termination_by s => s.length
decreasing_by
  all_goals first
  | exact hlt
  | simp

/-- The pattern built at line 80:
`rf'!\[[^\]]*\]\([^)]*{re.escape(image_file.name)}[^)]*\)'`. -/
def mkPattern (name : List Char) : List Piece :=
  [Piece.lit '!', Piece.lit '[', Piece.starNot ']', Piece.lit ']', Piece.lit '(',
   Piece.starNot ')', Piece.litStr name, Piece.starNot ')', Piece.lit ')']

/-- The replacement built at line 81: `f'![Image]({minio_url})'`. -/
def imageTag (url : List Char) : List Char :=
  "![Image](".data ++ url ++ [')']

/-- A Markdown image tag `![alt](target)`, used to state properties of
the link rewriter. -/
def mdTag (alt target : List Char) : List Char :=
  '!' :: '[' :: (alt ++ ']' :: '(' :: (target ++ [')']))

/-! ## `process_referenced_images` (lines 61-89) -/

/-- The artifacts directory as `process_referenced_images` sees it: its
path, whether `artifacts_dir.exists()` holds, and the names of the files
it contains. -/
structure ArtifactsDir where
  path : List Char
  pathExists : Bool
  files : List (List Char)
deriving DecidableEq

/-- The result of `artifacts_dir.glob("*.png")` (line 67): the files
whose name ends with ".png". -/
def pngFiles (d : ArtifactsDir) : List (List Char) :=
  d.files.filter fun f => (".png".data).isSuffixOf f

/-- The `for image_file in image_files` loop (lines 75-87).  `envs i` is
the MinIO environment of the i-th upload call.  Returns the final
markdown content together with the concatenated MinIO operation
traces. -/
def processLoop (envs : Nat → MinioEnv) (dirPath : List Char) :
    Nat → List (List Char) → List Char → List Char × List MinioOp
  | _, [], content => (content, [])
  | i, name :: rest, content =>
      let up := upload_file_to_minio (envs i) (dirPath ++ '/' :: name) name
      match up.1 with
      | some url =>
          let r := processLoop envs dirPath (i + 1) rest
            (reSub (mkPattern name) (imageTag url) content)
          (r.1, up.2 ++ r.2)
      | none =>
          let r := processLoop envs dirPath (i + 1) rest content
          (r.1, up.2 ++ r.2)

/-- Embedding of `process_referenced_images` (lines 61-89).  Returns the
(possibly rewritten) markdown content and the trace of MinIO operations
issued while processing the images. -/
def process_referenced_images (envs : Nat → MinioEnv)
    (artifacts_dir : Option ArtifactsDir) (markdown_content : List Char) :
    List Char × List MinioOp :=
  match artifacts_dir with
  | none => (markdown_content, [])
  | some d =>
      if d.pathExists = false then (markdown_content, [])
      else
        let image_files := pngFiles d
        if image_files.isEmpty then (markdown_content, [])
        else processLoop envs d.path 0 image_files markdown_content

/-! ## `word_to_markdown_from_url` (lines 91-135) and `main` (lines 137-179) -/

/-- An HTTP response as `requests.get` delivers it: final status code
and the streamed body chunks. -/
structure HttpResponse where
  status : Nat
  chunks : List (List Char)
deriving DecidableEq

/-- An exception propagating out of the pipeline. -/
inductive PipelineError where
  | networkError
  | httpStatusError (status : Nat)
  | conversionError
deriving DecidableEq

/-- An externally visible step of `word_to_markdown_from_url`. -/
inductive RunOp where
  | httpGet
  | convertDoc
deriving DecidableEq

/-- Environment of one pipeline run: the outcome of the single HTTP GET
(`none` is a network error raised by `requests.get`), whether
`converter.convert` raises, the Markdown text and artifact files that
`save_as_markdown` produces in REFERENCED mode, the MinIO environments
of the successive uploads, and the text `export_to_markdown` would
produce in the legacy mode. -/
structure RunEnv where
  tempDir : List Char
  httpResult : Option HttpResponse
  convertOk : Bool
  savedMarkdown : List Char
  artifactFiles : List (List Char)
  uploadEnvs : Nat → MinioEnv
  exportMarkdown : List Char

/-- Embedding of `response.raise_for_status()` (line 101): the `requests`
library raises `HTTPError` exactly for 4xx and 5xx status codes. -/
def raiseForStatus (status : Nat) : Except PipelineError Unit :=
  if 400 ≤ status ∧ status < 600 then
    Except.error (PipelineError.httpStatusError status)
  else Except.ok ()

/-- The artifacts directory created at lines 113-116:
`temp_path / "output" / "input_artifacts"`, made to exist by `mkdir`. -/
def runArtifactsDir (env : RunEnv) : ArtifactsDir :=
  ⟨env.tempDir ++ "/output/input_artifacts".data, true, env.artifactFiles⟩

/-- Embedding of `word_to_markdown_from_url` (lines 91-135).  Returns the
markdown content or the propagated exception, together with the trace of
download/convert steps performed. -/
def word_to_markdown_from_url (env : RunEnv) (use_referenced_mode : Bool) :
    Except PipelineError (List Char) × List RunOp :=
  match env.httpResult with
  | none => (Except.error PipelineError.networkError, [RunOp.httpGet])
  | some resp =>
      match raiseForStatus resp.status with
      | Except.error e => (Except.error e, [RunOp.httpGet])
      | Except.ok _ =>
          if env.convertOk = false then
            (Except.error PipelineError.conversionError, [RunOp.httpGet, RunOp.convertDoc])
          else if use_referenced_mode then
            (Except.ok (process_referenced_images env.uploadEnvs
                (some (runArtifactsDir env)) env.savedMarkdown).1,
              [RunOp.httpGet, RunOp.convertDoc])
          else
            (Except.ok env.exportMarkdown, [RunOp.httpGet, RunOp.convertDoc])

/-- Embedding of `main` (lines 137-179): call the pipeline in REFERENCED
mode inside `try`; on success write the result to `output_improved.md`,
on any exception print a traceback and return without writing.  The
result is the content written to the output file (if any) and whether
the traceback diagnostic was printed.  (Lean reserves the name `main`
for an IO entry point, hence the name `mainRun`.) -/
def mainRun (env : RunEnv) : Option (List Char) × Bool :=
  match (word_to_markdown_from_url env true).1 with
  | Except.ok md => (some md, false)
  | Except.error _ => (none, true)

/-! ## Helper lemmas about the regex engine -/

theorem takeWhile_append_cons {p : Char → Bool} (a : List Char) (c : Char)
    (b : List Char) (ha : ∀ x ∈ a, p x = true) (hc : p c = false) :
    (a ++ c :: b).takeWhile p = a := by
  induction a with
  | nil =>
      simp only [List.nil_append]
      exact List.takeWhile_cons_of_neg (by simp [hc])
  | cons d a ih =>
      have hd : p d = true := ha d (List.mem_cons_self d a)
      rw [List.cons_append, List.takeWhile_cons_of_pos hd,
        ih (fun x hx => ha x (List.mem_cons_of_mem d hx))]

theorem tryStarGen_top {f : List Char → Option (List Char)} {s : List Char}
    {n : Nat} {r : List Char} (h : f (s.drop n) = some r) :
    tryStarGen f s n = some r := by
  cases n with
  | zero => simpa [tryStarGen] using h
  | succ k => simp [tryStarGen, h]

theorem tryStarGen_of_exists {f : List Char → Option (List Char)} {s : List Char}
    {r : List Char} (n k0 : Nat) (hk : k0 ≤ n) (hs : f (s.drop k0) = some r)
    (huniq : ∀ k r2, k ≤ n → f (s.drop k) = some r2 → r2 = r) :
    tryStarGen f s n = some r := by
  induction n with
  | zero =>
      have h0 : k0 = 0 := Nat.le_zero.mp hk
      subst h0
      simpa [tryStarGen] using hs
  | succ m ih =>
      cases hv : f (s.drop (m + 1)) with
      | some r2 =>
          have hr : r2 = r := huniq (m + 1) r2 (Nat.le_refl _) hv
          subst hr
          simp [tryStarGen, hv]
      | none =>
          have hk0 : k0 ≤ m := by
            rcases Nat.lt_or_ge k0 (m + 1) with h | h
            · omega
            · exfalso
              have he : k0 = m + 1 := by omega
              subst he
              rw [hs] at hv
              cases hv
          simp only [tryStarGen, hv]
          exact ih hk0 (fun k r2 hkm => huniq k r2 (Nat.le_succ_of_le hkm))

theorem matchPieces_nil (s : List Char) : matchPieces [] s = some s := by
  simp [matchPieces]

theorem matchPieces_lit_cons (c : Char) (ps : List Piece) (d : Char) (s : List Char) :
    matchPieces (Piece.lit c :: ps) (d :: s) =
      if d = c then matchPieces ps s else none := by
  simp [matchPieces]

theorem matchPieces_lit_nil (c : Char) (ps : List Piece) :
    matchPieces (Piece.lit c :: ps) [] = none := by
  simp [matchPieces]

theorem matchPieces_litStr (l : List Char) (ps : List Piece) (s : List Char) :
    matchPieces (Piece.litStr l :: ps) s =
      if l.isPrefixOf s then matchPieces ps (s.drop l.length) else none := by
  simp [matchPieces]

theorem matchPieces_starNot (c : Char) (ps : List Piece) (s : List Char) :
    matchPieces (Piece.starNot c :: ps) s =
      tryStarGen (fun s2 => matchPieces ps s2) s
        ((s.takeWhile fun d => !(d = c)).length) := by
  simp [matchPieces]

theorem drop_append_of_le {a b : List Char} {k : Nat} (hk : k ≤ a.length) :
    (a ++ b).drop k = a.drop k ++ b := by
  conv_lhs => rw [← List.take_append_drop k a]
  rw [List.append_assoc, List.drop_left' (by rw [List.length_take]; omega)]

theorem matchTail_of_name_at (name t2 rest : List Char) (h2 : ')' ∉ t2) :
    matchPieces [Piece.litStr name, Piece.starNot ')', Piece.lit ')']
      (name ++ (t2 ++ ')' :: rest)) = some rest := by
  rw [matchPieces_litStr]
  have hp : name.isPrefixOf (name ++ (t2 ++ ')' :: rest)) = true := by
    simp [List.isPrefixOf_iff_prefix]
  rw [if_pos hp, List.drop_left]
  rw [matchPieces_starNot]
  have htw : ((t2 ++ ')' :: rest).takeWhile fun d => !(d = ')')) = t2 := by
    apply takeWhile_append_cons
    · intro x hx
      simp only [Bool.not_eq_true']
      exact decide_eq_false (fun e => h2 (e ▸ hx))
    · simp
  rw [htw]
  apply tryStarGen_top
  rw [List.drop_left]
  rw [matchPieces_lit_cons, if_pos rfl, matchPieces_nil]

theorem matchTail_unique (name a rest r2 : List Char) (hn : ')' ∉ name)
    (ha : ')' ∉ a)
    (h : matchPieces [Piece.litStr name, Piece.starNot ')', Piece.lit ')']
      (a ++ ')' :: rest) = some r2) :
    r2 = rest := by
  by_cases hp : name.isPrefixOf (a ++ ')' :: rest) = true
  · have hpre : name <+: a ++ ')' :: rest := List.isPrefixOf_iff_prefix.mp hp
    have hlen : name.length ≤ a.length := by
      by_contra hlt
      push_neg at hlt
      obtain ⟨t, ht⟩ := hpre
      have e1 : (a ++ ')' :: rest)[a.length]? = some ')' := by
        rw [List.getElem?_append_right (Nat.le_refl a.length)]
        simp
      have e2 : (name ++ t)[a.length]? = name[a.length]? := by
        rw [List.getElem?_append, if_pos hlt]
      have e3 : name[a.length]? = some ')' := by
        rw [← e2, ht]
        exact e1
      obtain ⟨h4, h5⟩ := List.getElem?_eq_some_iff.mp e3
      exact hn (h5 ▸ List.getElem_mem h4)
    have hna : name <+: a := by
      apply List.prefix_of_prefix_length_le hpre (List.prefix_append a (')' :: rest)) hlen
    obtain ⟨a2, rfl⟩ := hna
    have ha2 : ')' ∉ a2 := fun hx => ha (List.mem_append_right name hx)
    rw [List.append_assoc, matchTail_of_name_at name a2 rest ha2] at h
    exact (Option.some.injEq _ _ ▸ h).symm
  · rw [matchPieces_litStr, if_neg hp] at h
    cases h

theorem matchParen (name t1 t2 rest : List Char) (h1 : ')' ∉ t1)
    (hn : ')' ∉ name) (h2 : ')' ∉ t2) :
    matchPieces [Piece.starNot ')', Piece.litStr name, Piece.starNot ')', Piece.lit ')']
      (t1 ++ (name ++ (t2 ++ ')' :: rest))) = some rest := by
  have hshape : t1 ++ (name ++ (t2 ++ ')' :: rest)) = (t1 ++ name ++ t2) ++ ')' :: rest := by
    simp [List.append_assoc]
  rw [hshape, matchPieces_starNot]
  have hrun : ∀ x ∈ t1 ++ name ++ t2, (!(x = ')')) = true := by
    intro x hx
    simp only [Bool.not_eq_true']
    apply decide_eq_false
    intro e
    subst e
    rcases List.mem_append.mp hx with hx | hx
    · rcases List.mem_append.mp hx with hx | hx
      · exact h1 hx
      · exact hn hx
    · exact h2 hx
  have htw : (((t1 ++ name ++ t2) ++ ')' :: rest).takeWhile fun d => !(d = ')'))
      = t1 ++ name ++ t2 :=
    takeWhile_append_cons _ _ _ hrun (by simp)
  rw [htw]
  apply tryStarGen_of_exists (t1 ++ name ++ t2).length t1.length
  · simp [List.length_append]
  · have hd : ((t1 ++ name ++ t2) ++ ')' :: rest).drop t1.length
        = name ++ (t2 ++ ')' :: rest) := by
      rw [List.append_assoc, List.append_assoc, List.drop_left]
    rw [hd]
    exact matchTail_of_name_at name t2 rest h2
  · intro k r2 hk hmk
    have hd : ((t1 ++ name ++ t2) ++ ')' :: rest).drop k
        = (t1 ++ name ++ t2).drop k ++ ')' :: rest :=
      drop_append_of_le hk
    rw [hd] at hmk
    apply matchTail_unique name _ rest r2 hn _ hmk
    intro hx
    exact (by simpa using hrun ')' (List.drop_subset k _ hx) : ')' ≠ ')') rfl

theorem matchPieces_mdTag (name alt t1 t2 rest : List Char) (halt : ']' ∉ alt)
    (h1 : ')' ∉ t1) (hn : ')' ∉ name) (h2 : ')' ∉ t2) :
    matchPieces (mkPattern name) (mdTag alt (t1 ++ name ++ t2) ++ rest) = some rest := by
  have hshape : mdTag alt (t1 ++ name ++ t2) ++ rest
      = '!' :: '[' :: (alt ++ ']' :: '(' :: (t1 ++ (name ++ (t2 ++ ')' :: rest)))) := by
    simp [mdTag, List.append_assoc]
  rw [hshape]
  unfold mkPattern
  rw [matchPieces_lit_cons, if_pos rfl, matchPieces_lit_cons, if_pos rfl]
  rw [matchPieces_starNot]
  have htw : ((alt ++ ']' :: '(' :: (t1 ++ (name ++ (t2 ++ ')' :: rest)))).takeWhile
      fun d => !(d = ']')) = alt := by
    apply takeWhile_append_cons
    · intro x hx
      simp only [Bool.not_eq_true']
      exact decide_eq_false (fun e => halt (e ▸ hx))
    · simp
  rw [htw]
  apply tryStarGen_top
  rw [List.drop_left]
  rw [matchPieces_lit_cons, if_pos rfl, matchPieces_lit_cons, if_pos rfl]
  exact matchParen name t1 t2 rest h1 hn h2

theorem reSub_cons_of_none {pat : List Piece} {repl : List Char} {d : Char}
    {rest : List Char} (h : matchPieces pat (d :: rest) = none) :
    reSub pat repl (d :: rest) = d :: reSub pat repl rest := by
  rw [reSub.eq_2, h]

theorem reSub_of_match {pat : List Piece} {repl s r : List Char}
    (h : matchPieces pat s = some r) (hlt : r.length < s.length) :
    reSub pat repl s = repl ++ reSub pat repl r := by
  cases s with
  | nil => simp at hlt
  | cons d rest =>
      rw [reSub.eq_2, h]
      simp only [hlt, dite_true]

theorem matchPieces_mkPattern_of_not_bang {name : List Char} {d : Char}
    {s : List Char} (hd : d ≠ '!') :
    matchPieces (mkPattern name) (d :: s) = none := by
  unfold mkPattern
  rw [matchPieces_lit_cons, if_neg hd]

theorem reSub_append_of_no_bang (name : List Char) (repl pre s : List Char)
    (hpre : '!' ∉ pre) :
    reSub (mkPattern name) repl (pre ++ s) = pre ++ reSub (mkPattern name) repl s := by
  induction pre with
  | nil => simp
  | cons d pre ih =>
      have hd : d ≠ '!' := fun e => hpre (e ▸ List.mem_cons_self d pre)
      rw [List.cons_append,
        reSub_cons_of_none (matchPieces_mkPattern_of_not_bang hd),
        ih (fun hx => hpre (List.mem_cons_of_mem d hx)), List.cons_append]

theorem reSub_rewrites_tag (name url alt t1 t2 pre post : List Char)
    (halt : ']' ∉ alt) (h1 : ')' ∉ t1) (hn : ')' ∉ name) (h2 : ')' ∉ t2)
    (hpre : '!' ∉ pre) :
    reSub (mkPattern name) (imageTag url) (pre ++ (mdTag alt (t1 ++ name ++ t2) ++ post))
      = pre ++ (imageTag url ++ reSub (mkPattern name) (imageTag url) post) := by
  rw [reSub_append_of_no_bang name _ pre _ hpre]
  congr 1
  have hm := matchPieces_mdTag name alt t1 t2 post halt h1 hn h2
  have hlen : post.length < (mdTag alt (t1 ++ name ++ t2) ++ post).length := by
    simp [mdTag, List.length_append]
    omega
  rw [reSub_of_match hm hlen]

/-! ## Claim theorems -/

/-- C1: when the upload of an image raises anywhere inside
`upload_file_to_minio` (the bucket check, the bucket creation, or the
upload itself), the exception is caught and logged, the function returns
a null result, the Markdown content is left completely unmodified for
that image, and the loop continues with the remaining images. -/
theorem upload_failure_leaves_reference_unmodified
    (envs : Nat → MinioEnv) (dirPath : List Char) (i : Nat) (name : List Char)
    (rest : List (List Char)) (content : List Char)
    (h : (envs i).bucketExistsFails = true ∨
      ((envs i).bucketExists = false ∧ (envs i).makeBucketFails = true) ∨
      (envs i).fputFails = true) :
    (upload_file_to_minio (envs i) (dirPath ++ '/' :: name) name).1 = none ∧
    MinioOp.logFailure ∈ (upload_file_to_minio (envs i) (dirPath ++ '/' :: name) name).2 ∧
    (processLoop envs dirPath i (name :: rest) content).1
      = (processLoop envs dirPath (i + 1) rest content).1 := by
  have hnone : (upload_file_to_minio (envs i) (dirPath ++ '/' :: name) name).1 = none ∧
      MinioOp.logFailure ∈ (upload_file_to_minio (envs i) (dirPath ++ '/' :: name) name).2 := by
    rcases h with h | ⟨h1, h2⟩ | h <;>
      cases hbe : (envs i).bucketExistsFails <;>
      cases hex : (envs i).bucketExists <;>
      cases hmb : (envs i).makeBucketFails <;>
      cases hfp : (envs i).fputFails <;>
      simp_all [upload_file_to_minio, uploadAfterBucket]
  exact ⟨hnone.1, hnone.2, by simp [processLoop, hnone.1]⟩

/-- C1 witness: a concrete failing upload inside a concrete loop. -/
theorem upload_failure_leaves_reference_unmodified_witness :
    (upload_file_to_minio ((fun _ => (⟨true, "U".data, false, false, true⟩ : MinioEnv)) 0)
      ("d".data ++ '/' :: "a.png".data) "a.png".data).1 = none ∧
    MinioOp.logFailure ∈ (upload_file_to_minio
      ((fun _ => (⟨true, "U".data, false, false, true⟩ : MinioEnv)) 0)
      ("d".data ++ '/' :: "a.png".data) "a.png".data).2 ∧
    (processLoop (fun _ => (⟨true, "U".data, false, false, true⟩ : MinioEnv)) "d".data 0
      ["a.png".data] "![x](a.png)".data).1
      = (processLoop (fun _ => (⟨true, "U".data, false, false, true⟩ : MinioEnv)) "d".data 1
          [] "![x](a.png)".data).1 :=
  upload_failure_leaves_reference_unmodified
    (fun _ => (⟨true, "U".data, false, false, true⟩ : MinioEnv)) "d".data 0 "a.png".data
    [] "![x](a.png)".data (Or.inr (Or.inr rfl))

/-- C4: a successful call of `upload_file_to_minio` returns exactly the
string `{base_url}/{bucket}/{unique_name}`, where `unique_name` is the
requested object name prefixed with the freshly generated UUID and an
underscore. -/
theorem upload_success_url_shape (env : MinioEnv) (p n : List Char)
    (hbe : env.bucketExistsFails = false) (hfp : env.fputFails = false)
    (hmb : env.bucketExists = true ∨ env.makeBucketFails = false) :
    (upload_file_to_minio env p n).1
      = some (MINIO_BASE_URL ++ '/' :: (MINIO_BUCKET ++ '/' :: uniqueFilename env n)) ∧
    uniqueFilename env n = env.uuid ++ '_' :: n := by
  constructor
  · rcases hmb with h | h
    · simp [upload_file_to_minio, uploadAfterBucket, hbe, h, hfp]
    · cases hex : env.bucketExists <;>
        simp [upload_file_to_minio, uploadAfterBucket, hbe, h, hfp, hex]
  · rfl

/-- C4 witness: a concrete successful upload. -/
theorem upload_success_url_shape_witness :
    (upload_file_to_minio (⟨false, "U".data, false, false, false⟩ : MinioEnv)
      "p".data "a.png".data).1
      = some (MINIO_BASE_URL ++ '/' :: (MINIO_BUCKET ++ '/' ::
          uniqueFilename (⟨false, "U".data, false, false, false⟩ : MinioEnv) "a.png".data)) ∧
    uniqueFilename (⟨false, "U".data, false, false, false⟩ : MinioEnv) "a.png".data
      = "U".data ++ '_' :: "a.png".data :=
  upload_success_url_shape (⟨false, "U".data, false, false, false⟩ : MinioEnv)
    "p".data "a.png".data rfl rfl (Or.inr rfl)

/-- C5: the name scheme `uuid + "_" + object_name` is injective in the
uuid component: two uploads whose generated UUIDs differ produce
different object names whenever the two original filenames coincide (and
also for arbitrary filenames whenever the two UUID strings have equal
length, as `uuid.uuid4()` strings always do). -/
theorem unique_names_of_distinct_uuids (env1 env2 : MinioEnv) (n1 n2 : List Char)
    (hu : env1.uuid ≠ env2.uuid)
    (h : env1.uuid.length = env2.uuid.length ∨ n1 = n2) :
    uniqueFilename env1 n1 ≠ uniqueFilename env2 n2 := by
  intro he
  unfold uniqueFilename at he
  have hlen : env1.uuid.length = env2.uuid.length := by
    rcases h with h | h
    · exact h
    · subst h
      have hl := congrArg List.length he
      simp [List.length_append] at hl
      omega
  exact hu (List.append_inj he hlen).1

/-- C5 witness: two concrete uploads sharing a filename but with
different UUIDs give different object names. -/
theorem unique_names_of_distinct_uuids_witness :
    uniqueFilename (⟨true, "U1".data, false, false, false⟩ : MinioEnv) "a.png".data
      ≠ uniqueFilename (⟨true, "U2".data, false, false, false⟩ : MinioEnv) "a.png".data :=
  unique_names_of_distinct_uuids
    (⟨true, "U1".data, false, false, false⟩ : MinioEnv)
    (⟨true, "U2".data, false, false, false⟩ : MinioEnv)
    "a.png".data "a.png".data (by decide) (Or.inr rfl)

/-- C6: on every call of `upload_file_to_minio` whose client operations
succeed, the trace is: the bucket-existence check first, then the bucket
creation exactly when the bucket was missing, and only then the single
`fput_object` upload — so a missing bucket is created before the object
is uploaded, and the upload is issued only once the bucket exists. -/
theorem bucket_created_before_upload (env : MinioEnv) (p n : List Char)
    (hbe : env.bucketExistsFails = false) (hmb : env.makeBucketFails = false) :
    (upload_file_to_minio env p n).2
      = MinioOp.checkBucket ::
          ((if env.bucketExists = true then [] else [MinioOp.makeBucket]) ++
            MinioOp.fput MINIO_BUCKET (uniqueFilename env n) p contentTypePng ::
              (if env.fputFails = true then [MinioOp.logFailure] else [])) := by
  cases hex : env.bucketExists <;> cases hfp : env.fputFails <;>
    simp [upload_file_to_minio, uploadAfterBucket, hbe, hmb, hex, hfp]

/-- C6 witness: a concrete call with a missing bucket creates it before
the upload. -/
theorem bucket_created_before_upload_witness :
    (upload_file_to_minio (⟨false, "U".data, false, false, false⟩ : MinioEnv)
      "p".data "a.png".data).2
      = MinioOp.checkBucket ::
          ((if (⟨false, "U".data, false, false, false⟩ : MinioEnv).bucketExists = true
              then [] else [MinioOp.makeBucket]) ++
            MinioOp.fput MINIO_BUCKET
              (uniqueFilename (⟨false, "U".data, false, false, false⟩ : MinioEnv) "a.png".data)
              "p".data contentTypePng ::
              (if (⟨false, "U".data, false, false, false⟩ : MinioEnv).fputFails = true
                then [MinioOp.logFailure] else [])) :=
  bucket_created_before_upload (⟨false, "U".data, false, false, false⟩ : MinioEnv)
    "p".data "a.png".data rfl rfl

/-- C10: `process_referenced_images` returns its markdown content
unchanged whenever the artifacts directory argument is null, does not
exist, or contains no file matching `*.png`. -/
theorem no_images_identity (envs : Nat → MinioEnv)
    (artifacts_dir : Option ArtifactsDir) (content : List Char)
    (h : artifacts_dir = none ∨
      (∃ d, artifacts_dir = some d ∧ d.pathExists = false) ∨
      (∃ d, artifacts_dir = some d ∧ pngFiles d = [])) :
    (process_referenced_images envs artifacts_dir content).1 = content := by
  rcases h with h | ⟨d, rfl, hd⟩ | ⟨d, rfl, hd⟩
  · subst h; rfl
  · simp [process_referenced_images, hd]
  · cases hpe : d.pathExists <;> simp [process_referenced_images, hpe, hd]

/-- C10 witness: a concrete directory with no `.png` file leaves the
content unchanged. -/
theorem no_images_identity_witness :
    (process_referenced_images (fun _ => (⟨true, "U".data, false, false, false⟩ : MinioEnv))
      (some (⟨"d".data, true, ["b.jpg".data]⟩ : ArtifactsDir)) "hello".data).1
      = "hello".data :=
  no_images_identity _ _ _
    (Or.inr (Or.inr ⟨(⟨"d".data, true, ["b.jpg".data]⟩ : ArtifactsDir), rfl, by decide⟩))

/-- C7 counterexample: the claim says any non-2xx status makes
`word_to_markdown_from_url` raise, but `response.raise_for_status()`
raises only for 4xx/5xx.  With a final status of 304 — which is not a
2xx status — the function returns normally instead of raising. -/
theorem http_non2xx_not_always_raised :
    (304 < 200 ∨ 299 < 304) ∧
    (word_to_markdown_from_url
      (⟨"T".data, some (⟨304, []⟩ : HttpResponse), true, [], [],
        fun _ => (⟨true, "U".data, false, false, false⟩ : MinioEnv), "x".data⟩ : RunEnv)
      false).1 = Except.ok "x".data :=
  ⟨Or.inr (by decide), rfl⟩

/-- C7 (amended): if the HTTP download raises a network error, or
returns a 4xx or 5xx status (the statuses for which
`response.raise_for_status()` raises), then `word_to_markdown_from_url`
propagates the error and the run performs exactly one HTTP GET with no
retry. -/
theorem http_error_propagates_no_retry (env : RunEnv) (m : Bool)
    (h : env.httpResult = none ∨
      ∃ r, env.httpResult = some r ∧ 400 ≤ r.status ∧ r.status < 600) :
    (∃ e, (word_to_markdown_from_url env m).1 = Except.error e) ∧
    (word_to_markdown_from_url env m).2 = [RunOp.httpGet] := by
  rcases h with h | ⟨r, hr, h4, h6⟩
  · simp [word_to_markdown_from_url, h]
  · have hrs : raiseForStatus r.status
        = Except.error (PipelineError.httpStatusError r.status) := by
      unfold raiseForStatus
      rw [if_pos ⟨h4, h6⟩]
    simp [word_to_markdown_from_url, hr, hrs]

/-- C7 witness: a concrete 404 download aborts the run after one GET. -/
theorem http_error_propagates_no_retry_witness :
    (∃ e, (word_to_markdown_from_url
      (⟨"T".data, some (⟨404, []⟩ : HttpResponse), true, [], [],
        fun _ => (⟨true, "U".data, false, false, false⟩ : MinioEnv), "x".data⟩ : RunEnv)
      true).1 = Except.error e) ∧
    (word_to_markdown_from_url
      (⟨"T".data, some (⟨404, []⟩ : HttpResponse), true, [], [],
        fun _ => (⟨true, "U".data, false, false, false⟩ : MinioEnv), "x".data⟩ : RunEnv)
      true).2 = [RunOp.httpGet] :=
  http_error_propagates_no_retry _ true
    (Or.inr ⟨(⟨404, []⟩ : HttpResponse), rfl, by decide, by decide⟩)

/-- C8 counterexample: the claim says any exception raised anywhere in
the pipeline is caught at `main` and the process exits without writing
output, but an exception raised inside `upload_file_to_minio` is caught
by the inner handler (the `logFailure` trace entry below records the
caught exception) and `main` still writes the output file without
printing a traceback. -/
theorem swallowed_upload_error_still_writes_output :
    mainRun (⟨"T".data, some (⟨200, []⟩ : HttpResponse), true, "![x](a.png)".data,
      ["a.png".data], fun _ => (⟨true, "U".data, false, false, true⟩ : MinioEnv),
      []⟩ : RunEnv) = (some "![x](a.png)".data, false) ∧
    MinioOp.logFailure ∈ (process_referenced_images
      (fun _ => (⟨true, "U".data, false, false, true⟩ : MinioEnv))
      (some (runArtifactsDir (⟨"T".data, some (⟨200, []⟩ : HttpResponse), true,
        "![x](a.png)".data, ["a.png".data],
        fun _ => (⟨true, "U".data, false, false, true⟩ : MinioEnv), []⟩ : RunEnv)))
      "![x](a.png)".data).2 :=
  ⟨rfl, by decide⟩

/-- C8 (amended): any exception that propagates out of
`word_to_markdown_from_url` is caught once at the entry point, the
traceback diagnostic is printed, and the process exits without writing
the output file; on success the output is written and no diagnostic is
printed.  (Exceptions raised during individual image uploads are caught
by inner handlers and never reach `main`.) -/
theorem propagated_errors_caught_at_main (env : RunEnv) :
    (∀ e, (word_to_markdown_from_url env true).1 = Except.error e →
      mainRun env = (none, true)) ∧
    (∀ md, (word_to_markdown_from_url env true).1 = Except.ok md →
      mainRun env = (some md, false)) := by
  constructor
  · intro e he
    simp [mainRun, he]
  · intro md hmd
    simp [mainRun, hmd]

/-- C8 witness: a concrete network failure is caught at the entry point
and no output is written. -/
theorem propagated_errors_caught_at_main_witness :
    mainRun (⟨"T".data, none, true, [], [],
      fun _ => (⟨true, "U".data, false, false, false⟩ : MinioEnv), []⟩ : RunEnv)
      = (none, true) :=
  (propagated_errors_caught_at_main _).1 PipelineError.networkError rfl

/-- C2: for a successfully uploaded image, the link rewriter replaces a
Markdown image tag whose target path contains the image's original
filename — with any surrounding path prefix `t1` and suffix `t2` — by
the fixed-alt-text tag pointing at the uploaded object's URL, and then
continues rewriting in the rest of the document.  The side conditions
state that the tag is well formed (no `]` in the alt text, no `)` in the
target or the filename) and that no earlier match overlaps it (no `!`
before it). -/
theorem rewriter_replaces_matching_tags (env : MinioEnv)
    (p name url alt t1 t2 pre post : List Char)
    (hsucc : (upload_file_to_minio env p name).1 = some url)
    (halt : ']' ∉ alt) (h1 : ')' ∉ t1) (hn : ')' ∉ name) (h2 : ')' ∉ t2)
    (hpre : '!' ∉ pre) :
    reSub (mkPattern name) (imageTag url) (pre ++ (mdTag alt (t1 ++ name ++ t2) ++ post))
      = pre ++ (imageTag url ++ reSub (mkPattern name) (imageTag url) post) :=
  reSub_rewrites_tag name url alt t1 t2 pre post halt h1 hn h2 hpre

/-- C2 witness: a concrete tag with a path prefix and a query-style
suffix around the filename is rewritten to the uploaded URL. -/
theorem rewriter_replaces_matching_tags_witness :
    reSub (mkPattern "a.png".data)
      (imageTag (MINIO_BASE_URL ++ '/' :: (MINIO_BUCKET ++ '/' ::
        uniqueFilename (⟨true, "U".data, false, false, false⟩ : MinioEnv) "a.png".data)))
      (" ".data ++ (mdTag "x".data ("d/".data ++ "a.png".data ++ "?v".data) ++ " z".data))
      = " ".data ++
          (imageTag (MINIO_BASE_URL ++ '/' :: (MINIO_BUCKET ++ '/' ::
            uniqueFilename (⟨true, "U".data, false, false, false⟩ : MinioEnv) "a.png".data))
            ++ reSub (mkPattern "a.png".data)
              (imageTag (MINIO_BASE_URL ++ '/' :: (MINIO_BUCKET ++ '/' ::
                uniqueFilename (⟨true, "U".data, false, false, false⟩ : MinioEnv) "a.png".data)))
              " z".data) :=
  rewriter_replaces_matching_tags (⟨true, "U".data, false, false, false⟩ : MinioEnv)
    "p".data "a.png".data _ "x".data "d/".data "?v".data " ".data " z".data
    rfl (by decide) (by decide) (by decide) (by decide) (by decide)

/-- Inverting the star loop: a successful result of `tryStarGen` comes
from the continuation applied to one of the attempted suffixes. -/
theorem tryStarGen_inv {f : List Char → Option (List Char)} {s : List Char} :
    ∀ {n : Nat} {r : List Char}, tryStarGen f s n = some r →
      ∃ k, f (s.drop k) = some r := by
  intro n
  induction n with
  | zero =>
      intro r h
      exact ⟨0, by simpa [tryStarGen] using h⟩
  | succ m ih =>
      intro r h
      cases hv : f (s.drop (m + 1)) with
      | some r2 =>
          refine ⟨m + 1, ?_⟩
          rw [hv]
          have h2 : tryStarGen f s (m + 1) = some r2 := by
            simp only [tryStarGen, hv]
          rw [h2] at h
          exact h
      | none =>
          have h2 : tryStarGen f s (m + 1) = tryStarGen f s m := by
            simp only [tryStarGen, hv]
          rw [h2] at h
          exact ih h

/-- A successful match of one pattern piece hands the continuation a
suffix of the text. -/
theorem matchPieces_suffix_step (p : Piece) (ps : List Piece) (s r : List Char)
    (h : matchPieces (p :: ps) s = some r) :
    ∃ s2, s2 <:+ s ∧ matchPieces ps s2 = some r := by
  cases p with
  | lit c =>
      cases s with
      | nil =>
          rw [matchPieces_lit_nil] at h
          cases h
      | cons d s3 =>
          rw [matchPieces_lit_cons] at h
          by_cases hd : d = c
          · rw [if_pos hd] at h
            exact ⟨s3, List.suffix_cons d s3, h⟩
          · rw [if_neg hd] at h
            cases h
  | litStr l =>
      rw [matchPieces_litStr] at h
      by_cases hp : l.isPrefixOf s = true
      · rw [if_pos hp] at h
        exact ⟨s.drop l.length, List.drop_suffix _ _, h⟩
      · rw [if_neg hp] at h
        cases h
  | starNot c =>
      rw [matchPieces_starNot] at h
      obtain ⟨k, hk⟩ := tryStarGen_inv h
      exact ⟨s.drop k, List.drop_suffix _ _, hk⟩

/-- A successful match of the pattern built for a filename requires the
filename to occur somewhere inside the text. -/
theorem infix_of_mkPattern_match (name s r : List Char)
    (h : matchPieces (mkPattern name) s = some r) :
    name <:+: s := by
  unfold mkPattern at h
  obtain ⟨s1, hs1, h⟩ := matchPieces_suffix_step _ _ _ _ h
  obtain ⟨s2, hs2, h⟩ := matchPieces_suffix_step _ _ _ _ h
  obtain ⟨s3, hs3, h⟩ := matchPieces_suffix_step _ _ _ _ h
  obtain ⟨s4, hs4, h⟩ := matchPieces_suffix_step _ _ _ _ h
  obtain ⟨s5, hs5, h⟩ := matchPieces_suffix_step _ _ _ _ h
  obtain ⟨s6, hs6, h⟩ := matchPieces_suffix_step _ _ _ _ h
  rw [matchPieces_litStr] at h
  by_cases hp : name.isPrefixOf s6 = true
  · have hpr : name <+: s6 := List.isPrefixOf_iff_prefix.mp hp
    have hsuf : s6 <:+ s :=
      hs6.trans (hs5.trans (hs4.trans (hs3.trans (hs2.trans hs1))))
    exact hpr.isInfix.trans hsuf.isInfix
  · rw [if_neg hp] at h
    cases h

/-- The pattern built for a filename never matches the empty text. -/
theorem matchPieces_mkPattern_nil (name : List Char) :
    matchPieces (mkPattern name) [] = none := by
  unfold mkPattern
  exact matchPieces_lit_nil _ _

/-- Substitution on the empty text is the identity when the pattern
does not match it. -/
theorem reSub_nil_of_none {pat : List Piece} {repl : List Char}
    (h : matchPieces pat [] = none) : reSub pat repl [] = [] := by
  rw [reSub.eq_1, h]

/-- If the filename does not occur in the text, the substitution with
its pattern leaves the text unchanged. -/
theorem reSub_id_of_name_absent (name repl s : List Char) (h : ¬ name <:+: s) :
    reSub (mkPattern name) repl s = s := by
  induction s with
  | nil => exact reSub_nil_of_none (matchPieces_mkPattern_nil name)
  | cons d rest ih =>
      have hm : matchPieces (mkPattern name) (d :: rest) = none := by
        cases hv : matchPieces (mkPattern name) (d :: rest) with
        | none => rfl
        | some r => exact absurd (infix_of_mkPattern_match _ _ _ hv) h
      rw [reSub_cons_of_none hm, ih (fun hx => h (List.infix_cons hx))]

/-- Image files whose names do not occur in the current content leave
the content unchanged as the loop passes over them, whether or not
their uploads succeed. -/
theorem processLoop_skip (envs : Nat → MinioEnv) (dirPath : List Char) :
    ∀ (gs rest : List (List Char)) (i : Nat) (content : List Char),
      (∀ g ∈ gs, ¬ g <:+: content) →
      (processLoop envs dirPath i (gs ++ rest) content).1
        = (processLoop envs dirPath (i + gs.length) rest content).1 := by
  intro gs
  induction gs with
  | nil =>
      intro rest i content _
      simp
  | cons g gs ih =>
      intro rest i content h
      have hg : ¬ g <:+: content := h g (List.mem_cons_self g gs)
      have hgs : ∀ x ∈ gs, ¬ x <:+: content :=
        fun x hx => h x (List.mem_cons_of_mem g hx)
      have he : i + 1 + gs.length = i + (g :: gs).length := by
        simp only [List.length_cons]
        omega
      rcases hup : (upload_file_to_minio (envs i) (dirPath ++ '/' :: g) g).1 with _ | url
      · simp only [List.cons_append, processLoop, hup, List.append_eq]
        rw [ih rest (i + 1) content hgs, he]
      · simp only [List.cons_append, processLoop, hup, List.append_eq]
        rw [reSub_id_of_name_absent g _ content hg]
        rw [ih rest (i + 1) content hgs, he]

/-- C3: every image file found in the artifacts directory whose upload
succeeds — the directory may contain any number of files and the file
may sit at any position `fs1 ++ f :: fs2` of the glob result — has its
Markdown reference replaced in the returned content by a URL that
contains both the configured base URL and the configured bucket name.
The side conditions say that the file's tag is well formed, that no
match overlaps it from the left, and that the other files' names do not
occur as substrings of the surrounding content (so their passes touch
nothing else). -/
theorem replaced_url_contains_base_and_bucket (envs : Nat → MinioEnv)
    (d : ArtifactsDir) (fs1 fs2 : List (List Char))
    (f alt t1 t2 pre post : List Char)
    (hd : d.pathExists = true)
    (hsplit : pngFiles d = fs1 ++ f :: fs2)
    (h0 : (envs fs1.length).bucketExistsFails = false)
    (h0m : (envs fs1.length).makeBucketFails = false)
    (h0f : (envs fs1.length).fputFails = false)
    (halt : ']' ∉ alt) (h1 : ')' ∉ t1) (hn : ')' ∉ f) (h2 : ')' ∉ t2)
    (hpre : '!' ∉ pre) (hpost : ¬ f <:+: post)
    (hbefore : ∀ g ∈ fs1, ¬ g <:+: pre ++ (mdTag alt (t1 ++ f ++ t2) ++ post))
    (hafter : ∀ g ∈ fs2,
      ¬ g <:+: pre ++ (imageTag (MINIO_BASE_URL ++ '/' :: (MINIO_BUCKET ++ '/' ::
        uniqueFilename (envs fs1.length) f)) ++ post)) :
    ∃ url,
      (upload_file_to_minio (envs fs1.length) (d.path ++ '/' :: f) f).1 = some url ∧
      MINIO_BASE_URL <:+: url ∧ MINIO_BUCKET <:+: url ∧
      (process_referenced_images envs (some d)
        (pre ++ (mdTag alt (t1 ++ f ++ t2) ++ post))).1
        = pre ++ (imageTag url ++ post) := by
  have hup : (upload_file_to_minio (envs fs1.length) (d.path ++ '/' :: f) f).1
      = some (MINIO_BASE_URL ++ '/' :: (MINIO_BUCKET ++ '/' ::
          uniqueFilename (envs fs1.length) f)) := by
    cases hex : (envs fs1.length).bucketExists <;>
      simp [upload_file_to_minio, uploadAfterBucket, h0, h0m, h0f, hex]
  refine ⟨_, hup, ?_, ?_, ?_⟩
  · exact (List.prefix_append _ _).isInfix
  · have hi := List.infix_append' (MINIO_BASE_URL ++ ['/']) MINIO_BUCKET
      ('/' :: uniqueFilename (envs fs1.length) f)
    simpa using hi
  · have hne : (pngFiles d).isEmpty = false := by
      rw [hsplit]
      simp
    have hproc : (process_referenced_images envs (some d)
        (pre ++ (mdTag alt (t1 ++ f ++ t2) ++ post))).1
        = (processLoop envs d.path 0 (pngFiles d)
            (pre ++ (mdTag alt (t1 ++ f ++ t2) ++ post))).1 := by
      simp [process_referenced_images, hd, hne]
    rw [hproc, hsplit,
      processLoop_skip envs d.path fs1 (f :: fs2) 0 _ hbefore, Nat.zero_add]
    simp only [processLoop, hup]
    rw [reSub_rewrites_tag f _ alt t1 t2 pre post halt h1 hn h2 hpre,
      reSub_id_of_name_absent f _ post hpost]
    have hskip2 := processLoop_skip envs d.path fs2 [] (fs1.length + 1)
      (pre ++ (imageTag (MINIO_BASE_URL ++ '/' :: (MINIO_BUCKET ++ '/' ::
        uniqueFilename (envs fs1.length) f)) ++ post)) hafter
    simp only [List.append_nil] at hskip2
    rw [hskip2]
    simp [processLoop]

/-- C3 witness: a three-file artifacts directory in which the middle
file's upload succeeds; the passes over the other two files leave the
content untouched and the middle file's reference is rewritten to a URL
containing base URL and bucket. -/
theorem replaced_url_contains_base_and_bucket_witness :
    ∃ url,
      (upload_file_to_minio (⟨true, "U".data, false, false, false⟩ : MinioEnv)
        ((⟨"d".data, true, ["a.png".data, "b.png".data, "c.png".data]⟩ : ArtifactsDir).path
          ++ '/' :: "b.png".data)
        "b.png".data).1 = some url ∧
      MINIO_BASE_URL <:+: url ∧ MINIO_BUCKET <:+: url ∧
      (process_referenced_images
        (fun _ : Nat => (⟨true, "U".data, false, false, false⟩ : MinioEnv))
        (some (⟨"d".data, true, ["a.png".data, "b.png".data, "c.png".data]⟩ : ArtifactsDir))
        (" ".data ++ (mdTag "x".data ("d/".data ++ "b.png".data ++ "".data) ++ "".data))).1
        = " ".data ++ (imageTag url ++ "".data) :=
  replaced_url_contains_base_and_bucket
    (fun _ : Nat => (⟨true, "U".data, false, false, false⟩ : MinioEnv))
    (⟨"d".data, true, ["a.png".data, "b.png".data, "c.png".data]⟩ : ArtifactsDir)
    ["a.png".data] ["c.png".data]
    "b.png".data "x".data "d/".data "".data " ".data "".data
    rfl rfl rfl rfl rfl
    (by decide) (by decide) (by decide) (by decide) (by decide) (by decide)
    (by decide) (by decide)

/-- Every MinIO operation in the trace of the image loop comes from the
upload call of one of the listed files. -/
theorem processLoop_trace_src (envs : Nat → MinioEnv) (dirPath : List Char) :
    ∀ (names : List (List Char)) (i : Nat) (content : List Char) (op : MinioOp),
      op ∈ (processLoop envs dirPath i names content).2 →
      ∃ j name, name ∈ names ∧
        op ∈ (upload_file_to_minio (envs j) (dirPath ++ '/' :: name) name).2 := by
  intro names
  induction names with
  | nil =>
      intro i content op h
      simp [processLoop] at h
  | cons name rest ih =>
      intro i content op h
      rcases hup : (upload_file_to_minio (envs i) (dirPath ++ '/' :: name) name).1 with _ | url <;>
        simp only [processLoop, hup] at h <;>
        rcases List.mem_append.mp h with h | h <;>
        first
          | exact ⟨i, name, List.mem_cons_self name rest, h⟩
          | (obtain ⟨j, n2, hn2, hop⟩ := ih (i + 1) _ op h
             exact ⟨j, n2, List.mem_cons_of_mem name hn2, hop⟩)

/-- Any `fput_object` call issued by `upload_file_to_minio` targets the
configured bucket, uses the UUID-prefixed object name and the given file
path, and always declares content type `image/png`. -/
theorem upload_fput_shape (env : MinioEnv) (p n b nn fp ct : List Char)
    (h : MinioOp.fput b nn fp ct ∈ (upload_file_to_minio env p n).2) :
    b = MINIO_BUCKET ∧ nn = uniqueFilename env n ∧ fp = p ∧ ct = contentTypePng := by
  cases hbe : env.bucketExistsFails <;> cases hex : env.bucketExists <;>
    cases hmb : env.makeBucketFails <;> cases hfp : env.fputFails <;>
    simp_all [upload_file_to_minio, uploadAfterBucket]

/-- C9: only files matching `*.png` in the artifacts directory are ever
uploaded: every `fput_object` issued while processing the images targets
an object name derived from a file of the directory whose name ends in
".png", and every upload declares content type `image/png` regardless of
file content. -/
theorem only_png_files_uploaded (envs : Nat → MinioEnv) (dir : ArtifactsDir)
    (content b nn fp ct : List Char)
    (h : MinioOp.fput b nn fp ct ∈ (process_referenced_images envs (some dir) content).2) :
    ct = contentTypePng ∧
    ∃ f, f ∈ dir.files ∧ (".png".data).isSuffixOf f = true ∧
      ∃ j, nn = uniqueFilename (envs j) f := by
  by_cases hpe : dir.pathExists = false
  · simp [process_referenced_images, hpe] at h
  · by_cases hie : (pngFiles dir).isEmpty
    · simp [process_referenced_images, hpe, hie] at h
    · have h2 : MinioOp.fput b nn fp ct ∈
          (processLoop envs dir.path 0 (pngFiles dir) content).2 := by
        simpa [process_referenced_images, hpe, hie] using h
      obtain ⟨j, f, hf, hop⟩ := processLoop_trace_src envs dir.path (pngFiles dir) 0 content _ h2
      have hfl := List.mem_filter.mp hf
      obtain ⟨hb, hnn, hfp2, hct⟩ := upload_fput_shape _ _ _ _ _ _ _ hop
      exact ⟨hct, f, hfl.1, hfl.2, j, hnn⟩

/-- C9 witness: in a concrete directory holding `a.png` and `b.jpg`, the
single issued upload is for `a.png` and declares `image/png`. -/
theorem only_png_files_uploaded_witness :
    contentTypePng = contentTypePng ∧
    ∃ f, f ∈ (⟨"d".data, true, ["a.png".data, "b.jpg".data]⟩ : ArtifactsDir).files ∧
      (".png".data).isSuffixOf f = true ∧
      ∃ j : Nat, ('U' :: '_' :: "a.png".data)
        = uniqueFilename (⟨true, "U".data, false, false, true⟩ : MinioEnv) f :=
  only_png_files_uploaded (fun _ => (⟨true, "U".data, false, false, true⟩ : MinioEnv))
    (⟨"d".data, true, ["a.png".data, "b.jpg".data]⟩ : ArtifactsDir)
    "![x](a.png)".data MINIO_BUCKET ('U' :: '_' :: "a.png".data)
    ('d' :: '/' :: "a.png".data) contentTypePng (by decide)
